import Mathlib

/-!
Shallow embedding of the extraction-and-reconciliation engine of
`src/pdf_processor.py` (classes `Item`, `ComparisonResult`, `PDFProcessor`).

Modelling conventions:
* Python `Decimal` values are modelled as exact rationals (`ℚ`).  Addition,
  subtraction and comparison of `Decimal` are exact, so the model is faithful
  there; the single division in the tolerance check is modelled as exact
  rational division.
* Python strings are Lean `String`; character-level processing works on
  `String.data`.
* A Python function that can raise an exception is modelled with `Option`:
  `none` means the call raised.
* Python `dict` (insertion ordered) keyed by `item_code` is modelled as a
  `List Item` without duplicate codes, in insertion order; mutation of a dict
  value (which aliases the first-occurrence list element) is modelled
  explicitly, see `finalInvoiceState`.
-/

/-- Model of the character class kept by
`re.sub(r"[^\d.,\-]", "", value)` in `_parse_decimal`: digits, dot, comma,
minus survive, everything else is deleted. -/
def keepChar (c : Char) : Bool :=
  c.isDigit || c == '.' || c == ',' || c == '-'

/-- The cleaning step of `_parse_decimal`: drop every character outside
digits, dot, comma, minus. -/
def cleanValue (s : List Char) : List Char :=
  s.filter keepChar

/-- The separator normalisation step of `_parse_decimal`: if both a comma and
a dot occur, all commas are removed; else if a comma occurs, commas become
dots; else the text is unchanged. -/
def commaStage (l : List Char) : List Char :=
  if l.contains ',' && l.contains '.' then
    l.filter (fun c => !(c == ','))
  else if l.contains ',' then
    l.map (fun c => if c == ',' then '.' else c)
  else l

/-- Numeric value of a digit string, most significant digit first. -/
def natOfDigits (l : List Char) : ℕ :=
  l.foldl (fun a c => a * 10 + (c.toNat - 48)) 0

/-- Model of the `Decimal(string)` constructor of Python on the alphabet that
survives `cleanValue` (digits, dot, comma, minus): an optional leading minus,
an integer part, an optional dot with a fractional part, at least one digit in
total, and nothing else.  The result is (sign, digits as a natural number,
number of fractional digits); `none` models `InvalidOperation`. -/
def pyDecimalOfChars (l : List Char) : Option (Bool × ℕ × ℕ) :=
  let sl : Bool × List Char :=
    match l with
    | '-' :: rest => (true, rest)
    | _ => (false, l)
  let sign := sl.1
  let l1 := sl.2
  let ip := l1.takeWhile Char.isDigit
  let r1 := l1.dropWhile Char.isDigit
  match r1 with
  | [] => if ip = [] then none else some (sign, natOfDigits ip, 0)
  | '.' :: r2 =>
    let fp := r2.takeWhile Char.isDigit
    let r3 := r2.dropWhile Char.isDigit
    if r3 = [] ∧ ¬(ip = [] ∧ fp = []) then
      some (sign, natOfDigits (ip ++ fp), fp.length)
    else none
  | _ => none

/-- Rational value of a parsed decimal triple (sign, digits, scale). -/
def ratOfTriple : Bool × ℕ × ℕ → ℚ
  | (sign, n, k) => (if sign then -1 else 1) * (n : ℚ) / 10 ^ k

/-- Embedding of `PDFProcessor._parse_decimal`: empty input gives zero,
otherwise the input is cleaned, the separators are normalised, and the result
is parsed as a decimal; any parse failure gives zero. -/
def parseDecimal (s : String) : ℚ :=
  if s.data = [] then 0
  else
    match pyDecimalOfChars (commaStage (cleanValue s.data)) with
    | some t => ratOfTriple t
    | none => 0

/-- Model of Python `str.strip()`: remove leading and trailing whitespace. -/
def pyStrip (s : String) : String :=
  ⟨((s.data.dropWhile Char.isWhitespace).reverse.dropWhile
      Char.isWhitespace).reverse⟩

/-- Embedding of the dataclass `Item` of `pdf_processor.py`. -/
structure Item where
  item_code : String
  description : String
  quantity : ℚ
  unit_price : ℚ
  total_price : ℚ
deriving DecidableEq

/-- Embedding of the property `Item.line_total`. -/
def Item.line_total (it : Item) : ℚ :=
  it.quantity * it.unit_price

/-- Embedding of the dataclass `ComparisonResult` of `pdf_processor.py`. -/
structure ComparisonResult where
  item_code : String
  description : String
  offer_quantity : ℚ
  delivered_quantity : ℚ
  offer_price : ℚ
  invoiced_price : ℚ
  quantity_difference : ℚ
  price_difference : ℚ
  status : String
deriving DecidableEq

/-- Embedding of the column-index dictionary built by
`PDFProcessor._identify_columns`; a `none` field is an absent dict key. -/
structure ColumnIndices where
  item_code : Option ℕ := none
  description : Option ℕ := none
  quantity : Option ℕ := none
  unit_price : Option ℕ := none
  total_price : Option ℕ := none
deriving DecidableEq

/-- The empty column dictionary (no header cell matched any keyword). -/
def emptyCols : ColumnIndices := {}

/-- Lower-cased character list of a header cell (`str(header).lower()`). -/
def lowerChars (s : String) : List Char :=
  s.data.map Char.toLower

/-- Decidable prefix test on character lists. -/
def isPrefixChars : List Char → List Char → Bool
  | [], _ => true
  | _ :: _, [] => false
  | a :: as, b :: bs => a == b && isPrefixChars as bs

/-- Decidable substring test on character lists, modelling Python
`needle in hay`. -/
def containsSub (needle : List Char) : List Char → Bool
  | [] => needle.isEmpty
  | c :: t => isPrefixChars needle (c :: t) || containsSub needle t

/-- Model of `any(x in header_lower for x in kws)`. -/
def anyKeyword (kws : List String) (hl : List Char) : Bool :=
  kws.any (fun k => containsSub k.data hl)

/-- One iteration of the loop of `_identify_columns`: the elif chain assigns
to column `i` the first role whose keyword set matched the lower-cased header
text; a later column matching the same role overwrites the dict entry. -/
def identifyStep (i : ℕ) (header : String) (cols : ColumnIndices) :
    ColumnIndices :=
  let hl := lowerChars header
  if anyKeyword ["item", "code", "article"] hl then
    { cols with item_code := some i }
  else if anyKeyword ["desc", "description", "product"] hl then
    { cols with description := some i }
  else if anyKeyword ["qty", "quantity", "amount"] hl then
    { cols with quantity := some i }
  else if anyKeyword ["price", "unit"] hl then
    { cols with unit_price := some i }
  else if anyKeyword ["total", "sum"] hl then
    { cols with total_price := some i }
  else cols

/-- Embedding of `PDFProcessor._identify_columns`. -/
def identifyColumns (header_row : List String) : ColumnIndices :=
  header_row.enum.foldl (fun cols p => identifyStep p.1 p.2 cols) {}

/-- Embedding of `PDFProcessor._parse_row`.  An out-of-range cell access
raises `IndexError`, which the function catches, returning `None`; a row with
an empty stripped code or a zero (falsy) parsed quantity or unit price also
returns `None`.  A zero parsed total price is replaced by
`quantity * unit_price` (`total_price or (quantity * unit_price)`). -/
def parseRow (row : List String) (cols : ColumnIndices) : Option Item := do
  let c ← row.get? (cols.item_code.getD 0)
  let d ← row.get? (cols.description.getD 1)
  let q ← row.get? (cols.quantity.getD 2)
  let p ← row.get? (cols.unit_price.getD 3)
  let t ← row.get? (cols.total_price.getD 4)
  let item_code := pyStrip c
  let quantity := parseDecimal q
  let unit_price := parseDecimal p
  let total_price := parseDecimal t
  if item_code ≠ "" ∧ quantity ≠ 0 ∧ unit_price ≠ 0 then
    some { item_code := item_code, description := pyStrip d,
           quantity := quantity, unit_price := unit_price,
           total_price := if total_price ≠ 0 then total_price
                          else quantity * unit_price }
  else none

/-- Embedding of `PDFProcessor._process_table`: an empty table gives no
items; the first row is the header; if no header cell matched any keyword the
whole table is skipped; otherwise every later row that parses contributes one
item, in order. -/
def processTable (table : List (List String)) : List Item :=
  match table with
  | [] => []
  | header :: rows =>
    let cols := identifyColumns header
    if cols = emptyCols then []
    else rows.filterMap (fun r => parseRow r cols)

/-- Embedding of `self.price_tolerance = Decimal("0.02")`. -/
def price_tolerance : ℚ := 2 / 100

/-- One step of the invoice aggregation loop of `compare_documents`: a
repeated code adds its quantity and total price onto the existing dict entry;
a new code inserts the item at the end (dict insertion order). -/
def insertAgg (acc : List Item) (it : Item) : List Item :=
  if acc.any (fun a => a.item_code == it.item_code) then
    acc.map (fun a =>
      if a.item_code = it.item_code then
        { a with quantity := a.quantity + it.quantity,
                 total_price := a.total_price + it.total_price }
      else a)
  else acc ++ [it]

/-- Embedding of the `invoice_items_dict` built by `compare_documents`:
an insertion-ordered association of aggregated items, keyed by code. -/
def aggregate (invoice_items : List Item) : List Item :=
  invoice_items.foldl insertAgg []

/-- The body of the offer loop of `compare_documents` for one offer item:
`none` models the `DivisionByZero` / `InvalidOperation` raised by
`price_diff / offer_item.unit_price` when the quantities agree and the offer
unit price is zero (the division in the source is not guarded). -/
def processOfferItem (dict : List Item) (offer_item : Item) :
    Option ComparisonResult :=
  match dict.find? (fun a => a.item_code == offer_item.item_code) with
  | none =>
    some { item_code := offer_item.item_code,
           description := offer_item.description,
           offer_quantity := offer_item.quantity,
           delivered_quantity := 0,
           offer_price := offer_item.unit_price,
           invoiced_price := 0,
           quantity_difference := offer_item.quantity,
           price_difference := 0,
           status := "missing" }
  | some invoice_item =>
    let quantity_diff := offer_item.quantity - invoice_item.quantity
    let price_diff := offer_item.unit_price - invoice_item.unit_price
    let status : Option String :=
      if quantity_diff ≠ 0 then some "quantity_mismatch"
      else if offer_item.unit_price = 0 then none
      else if |price_diff / offer_item.unit_price| > price_tolerance then
        some "price_mismatch"
      else some "match"
    status.map (fun st =>
      { item_code := offer_item.item_code,
        description := offer_item.description,
        offer_quantity := offer_item.quantity,
        delivered_quantity := invoice_item.quantity,
        offer_price := offer_item.unit_price,
        invoiced_price := invoice_item.unit_price,
        quantity_difference := quantity_diff,
        price_difference := price_diff,
        status := st })

/-- The offer loop of `compare_documents`: one result per offer item, in
order; an exception in any iteration aborts the whole call (`none`). -/
def offerLoop (dict : List Item) : List Item → Option (List ComparisonResult)
  | [] => some []
  | o :: rest =>
    match processOfferItem dict o with
    | none => none
    | some r =>
      match offerLoop dict rest with
      | none => none
      | some rs => some (r :: rs)

/-- The `extra_item` result built for an aggregated invoice item whose code
is absent from the offer. -/
def mkExtra (invoice_item : Item) : ComparisonResult :=
  { item_code := invoice_item.item_code,
    description := invoice_item.description,
    offer_quantity := 0,
    delivered_quantity := invoice_item.quantity,
    offer_price := 0,
    invoiced_price := invoice_item.unit_price,
    quantity_difference := -invoice_item.quantity,
    price_difference := -invoice_item.unit_price,
    status := "extra_item" }

/-- The invoice-only loop of `compare_documents`: every aggregated item whose
code is not an offer code yields an `extra_item` result, in dict order. -/
def extraLoop (offer_item_codes : List String) : List Item →
    List ComparisonResult
  | [] => []
  | a :: rest =>
    if offer_item_codes.contains a.item_code then
      extraLoop offer_item_codes rest
    else mkExtra a :: extraLoop offer_item_codes rest

/-- Embedding of `PDFProcessor.compare_documents`: aggregate the invoice
items by code, run the offer loop, then append the invoice-only results;
`none` models an exception propagating out of the call. -/
def compareDocuments (offer_items invoice_items : List Item) :
    Option (List ComparisonResult) :=
  match offerLoop (aggregate invoice_items) offer_items with
  | none => none
  | some rs =>
    some (rs ++ extraLoop (offer_items.map (fun o => o.item_code))
      (aggregate invoice_items))

/-- Contents of the caller-owned `invoice_items` list after
`compare_documents` returns, under Python aliasing: every dict value aliases
the first list element carrying its code, and the aggregation loop mutates
that element in place, so the first occurrence of each code ends up holding
the aggregated quantity and total price while later occurrences are
untouched. -/
def finalInvoiceState (invoice_items : List Item) : List Item :=
  invoice_items.enum.map (fun p =>
    if (invoice_items.take p.1).all
        (fun prev => !(prev.item_code == p.2.item_code)) then
      ((aggregate invoice_items).find?
        (fun a => a.item_code == p.2.item_code)).getD p.2
    else p.2)

/-- Embedding of the summary record built by
`PDFProcessor.generate_summary`; counters are naturals, accumulated
differences are exact decimals. -/
structure Summary where
  total_items : ℕ
  matches_count : ℕ
  quantity_mismatches : ℕ
  price_mismatches : ℕ
  missing_items : ℕ
  extra_items : ℕ
  total_quantity_difference : ℚ
  total_price_difference : ℚ
deriving DecidableEq

/-- One iteration of the loop of `generate_summary`: bump the counter of the
matching status (an unknown status bumps none), then add the absolute
quantity and price differences unconditionally. -/
def summaryStep (s : Summary) (r : ComparisonResult) : Summary :=
  let s1 :=
    if r.status = "match" then { s with matches_count := s.matches_count + 1 }
    else if r.status = "quantity_mismatch" then
      { s with quantity_mismatches := s.quantity_mismatches + 1 }
    else if r.status = "price_mismatch" then
      { s with price_mismatches := s.price_mismatches + 1 }
    else if r.status = "missing" then
      { s with missing_items := s.missing_items + 1 }
    else if r.status = "extra_item" then
      { s with extra_items := s.extra_items + 1 }
    else s
  { s1 with
      total_quantity_difference :=
        s1.total_quantity_difference + |r.quantity_difference|,
      total_price_difference :=
        s1.total_price_difference + |r.price_difference| }

/-- Embedding of `PDFProcessor.generate_summary`: the summary starts with
`total_items = len(results)` and all other fields zero, then the loop runs
once over the results. -/
def generateSummary (results : List ComparisonResult) : Summary :=
  results.foldl summaryStep
    { total_items := results.length, matches_count := 0, quantity_mismatches := 0,
      price_mismatches := 0, missing_items := 0, extra_items := 0,
      total_quantity_difference := 0, total_price_difference := 0 }

/-- Specification-side notion used by the ordering claims: the list of codes
in order of first appearance, each code once (the iteration order of an
insertion-ordered dict). -/
def dedupFirst (codes : List String) : List String :=
  codes.foldl (fun acc c => if acc.contains c then acc else acc ++ [c]) []

/-- Specification-side ordered role table of §4.2 of the specification: the
(role, keyword-set) pairs, as data, used to state the refinement claim about
`identifyColumns`. -/
def roleKeywords : List (String × List String) :=
  [("item_code", ["item", "code", "article"]),
   ("description", ["desc", "description", "product"]),
   ("quantity", ["qty", "quantity", "amount"]),
   ("unit_price", ["price", "unit"]),
   ("total_price", ["total", "sum"])]

/-- Specification-side role assignment for one header cell: the first role of
the ordered table whose keyword set has a member occurring in the lower-cased
header text. -/
def specRoleOf (header : String) : Option String :=
  (roleKeywords.find? (fun rk => anyKeyword rk.2 (lowerChars header))).map
    (fun rk => rk.1)

/-- Update of the column dictionary by one (possibly absent) role
assignment. -/
def applyRole (role : Option String) (i : ℕ) (cols : ColumnIndices) :
    ColumnIndices :=
  match role with
  | some "item_code" => { cols with item_code := some i }
  | some "description" => { cols with description := some i }
  | some "quantity" => { cols with quantity := some i }
  | some "unit_price" => { cols with unit_price := some i }
  | some "total_price" => { cols with total_price := some i }
  | _ => cols

/-- Concrete one-item offer used by the C4 witness. -/
def offerC4 : List Item :=
  [{ item_code := "A", description := "w", quantity := 1,
     unit_price := 1, total_price := 1 }]

/-- Concrete one-item invoice used by the C4 witness. -/
def invC4 : List Item :=
  [{ item_code := "B", description := "v", quantity := 2,
     unit_price := 3, total_price := 6 }]

/-- Comparison output of the C4 witness inputs. -/
def resC4 : List ComparisonResult :=
  [{ item_code := "A", description := "w", offer_quantity := 1,
     delivered_quantity := 0, offer_price := 1, invoiced_price := 0,
     quantity_difference := 1, price_difference := 0,
     status := "missing" },
   { item_code := "B", description := "v", offer_quantity := 0,
     delivered_quantity := 2, offer_price := 0, invoiced_price := 3,
     quantity_difference := -2, price_difference := -3,
     status := "extra_item" }]

/-- Concrete one-item invoice used by the C6 witness. -/
def invC6 : List Item :=
  [{ item_code := "B", description := "v", quantity := 2,
     unit_price := 3, total_price := 6 }]

/-- Comparison output of the C6 witness inputs (offer empty). -/
def resC6 : List ComparisonResult :=
  [{ item_code := "B", description := "v", offer_quantity := 0,
     delivered_quantity := 2, offer_price := 0, invoiced_price := 3,
     quantity_difference := -2, price_difference := -3,
     status := "extra_item" }]

/-- Concrete offer item used by the C7 witness: unit price 25. -/
def offerItemC7 : Item :=
  { item_code := "B", description := "w", quantity := 5,
    unit_price := 25, total_price := 125 }

/-- Concrete invoice item used by the C7 witness: unit price 24.50, a
relative deviation of exactly the 2 percent tolerance. -/
def invItemC7 : Item :=
  { item_code := "B", description := "w", quantity := 5,
    unit_price := 49/2, total_price := 245/2 }

/-- Comparison output of the C7 witness inputs. -/
def resC7 : List ComparisonResult :=
  [{ item_code := "B", description := "w", offer_quantity := 5,
     delivered_quantity := 5, offer_price := 25,
     invoiced_price := 49/2, quantity_difference := 0,
     price_difference := 1/2, status := "match" }]

/-- Characterisation of `parseRow`: a row yields an item exactly when all
five cell accesses are in range, the stripped code cell is nonempty, and the
parsed quantity and unit price are both nonzero; the item then carries the
parsed fields, with a zero parsed total replaced by quantity times unit
price. -/
theorem parseRow_some_iff (row : List String) (cols : ColumnIndices)
    (it : Item) :
    parseRow row cols = some it ↔
      ∃ c d q p t,
        row.get? (cols.item_code.getD 0) = some c ∧
        row.get? (cols.description.getD 1) = some d ∧
        row.get? (cols.quantity.getD 2) = some q ∧
        row.get? (cols.unit_price.getD 3) = some p ∧
        row.get? (cols.total_price.getD 4) = some t ∧
        pyStrip c ≠ "" ∧ parseDecimal q ≠ 0 ∧ parseDecimal p ≠ 0 ∧
        it = { item_code := pyStrip c, description := pyStrip d,
               quantity := parseDecimal q, unit_price := parseDecimal p,
               total_price := if parseDecimal t ≠ 0 then parseDecimal t
                              else parseDecimal q * parseDecimal p } := by
  simp only [parseRow, Option.bind_eq_bind, Option.bind_eq_some]
  constructor
  · rintro ⟨c, hc, d, hd, q, hq, p, hp, t, ht, h⟩
    split at h
    · rename_i hcond
      exact ⟨c, d, q, p, t, hc, hd, hq, hp, ht, hcond.1, hcond.2.1,
        hcond.2.2, (Option.some_inj.mp h).symm⟩
    · exact absurd h (by simp)
  · rintro ⟨c, d, q, p, t, hc, hd, hq, hp, ht, h1, h2, h3, hit⟩
    exact ⟨c, hc, d, hd, q, hq, p, hp, t, ht, by
      rw [if_pos ⟨h1, h2, h3⟩, hit]⟩

/-- C2: evaluation of the numeric normaliser at the inputs named by the
claim.  The code returns 1.23456 for the European-formatted "1.234,56"
(deleting the comma and keeping the dot as decimal point), so the two
formattings of 1234.56 do not normalise to the same value; the remaining
cases behave as claimed.  This contradicts the repository test
`test_parse_decimal`, which expects 1234.56. -/
theorem c2_parse_decimal_divergence :
    parseDecimal "1.234,56" = 123456 / 100000 ∧
    parseDecimal "1,234.56" = 123456 / 100 ∧
    parseDecimal "€1,234.56" = 123456 / 100 ∧
    parseDecimal "invalid" = 0 ∧
    parseDecimal "" = 0 ∧
    parseDecimal "1.234,56" ≠ parseDecimal "1,234.56" := by
  have h1 : pyDecimalOfChars (commaStage (cleanValue "1.234,56".data)) =
      some (false, 123456, 5) := by decide
  have h2 : pyDecimalOfChars (commaStage (cleanValue "1,234.56".data)) =
      some (false, 123456, 2) := by decide
  have h3 : pyDecimalOfChars (commaStage (cleanValue "€1,234.56".data)) =
      some (false, 123456, 2) := by decide
  have h4 : pyDecimalOfChars (commaStage (cleanValue "invalid".data)) =
      none := by decide
  refine ⟨?_, ?_, ?_, ?_, ?_, ?_⟩ <;>
    simp [parseDecimal, h1, h2, h3, h4, ratOfTriple] <;> norm_num

/-- C5 counterexample: a row whose quantity cell is the parsable literal "0"
is discarded (the parsed Decimal 0 is falsy in the guard of `_parse_row`),
although the claim says such a row is not discarded. -/
theorem c5_counterexample :
    parseRow ["A", "Widget", "0", "5.00", "0"] emptyCols = none := by
  have hq : parseDecimal "0" = 0 := by
    have h : pyDecimalOfChars (commaStage (cleanValue "0".data)) =
        some (false, 0, 0) := by decide
    simp [parseDecimal, h, ratOfTriple]
  simp [parseRow, emptyCols, hq]

/-- C5 (amended): a data row yields an Item exactly when its five cell
accesses are in range, its stripped item code is nonempty, and its quantity
and unit-price cells parse to nonzero values; a cell that is empty,
unparsable, or a parsable representation of zero is discarded alike. -/
theorem c5_row_acceptance (row : List String) (cols : ColumnIndices)
    (it : Item) :
    parseRow row cols = some it ↔
      ∃ c d q p t,
        row.get? (cols.item_code.getD 0) = some c ∧
        row.get? (cols.description.getD 1) = some d ∧
        row.get? (cols.quantity.getD 2) = some q ∧
        row.get? (cols.unit_price.getD 3) = some p ∧
        row.get? (cols.total_price.getD 4) = some t ∧
        pyStrip c ≠ "" ∧ parseDecimal q ≠ 0 ∧ parseDecimal p ≠ 0 ∧
        it = { item_code := pyStrip c, description := pyStrip d,
               quantity := parseDecimal q, unit_price := parseDecimal p,
               total_price := if parseDecimal t ≠ 0 then parseDecimal t
                              else parseDecimal q * parseDecimal p } :=
  parseRow_some_iff row cols it

/-- C10: whenever a table row yields an Item, the stored total price is
nonzero (so it never stores 0 while quantity times unit price is nonzero),
and if the raw total-price cell normalises to zero the stored total price is
quantity times unit price. -/
theorem c10_total_price_fallback (row : List String) (cols : ColumnIndices)
    (it : Item) (t : String)
    (h : parseRow row cols = some it)
    (ht : row.get? (cols.total_price.getD 4) = some t) :
    it.total_price ≠ 0 ∧
    (parseDecimal t = 0 → it.total_price = it.quantity * it.unit_price) := by
  obtain ⟨c, d, q, p, t2, hc, hd, hq, hp, ht2, h1, h2, h3, hit⟩ :=
    (parseRow_some_iff row cols it).mp h
  rw [ht2] at ht
  have heq : t2 = t := Option.some_inj.mp ht
  rw [heq] at hit
  constructor
  · simp only [hit]
    split_ifs with hz
    · exact hz
    · exact mul_ne_zero h2 h3
  · intro h0
    simp [hit, h0]

/-- C10 witness: a concrete row with a zero total cell, quantity 2 and unit
price 3, stores total price 6. -/
theorem c10_witness :
    parseRow ["A", "d", "2", "3", "0"] emptyCols =
      some { item_code := "A", description := "d", quantity := 2,
             unit_price := 3, total_price := 6 } ∧
    (({ item_code := "A", description := "d", quantity := 2,
        unit_price := 3, total_price := 6 : Item }).total_price ≠ 0 ∧
     (parseDecimal "0" = 0 →
      ({ item_code := "A", description := "d", quantity := 2,
         unit_price := 3, total_price := 6 : Item }).total_price =
        ({ item_code := "A", description := "d", quantity := 2,
           unit_price := 3, total_price := 6 : Item }).quantity *
        ({ item_code := "A", description := "d", quantity := 2,
           unit_price := 3, total_price := 6 : Item }).unit_price)) := by
  have h2 : pyDecimalOfChars (commaStage (cleanValue "2".data)) =
      some (false, 2, 0) := by decide
  have h3 : pyDecimalOfChars (commaStage (cleanValue "3".data)) =
      some (false, 3, 0) := by decide
  have h0 : pyDecimalOfChars (commaStage (cleanValue "0".data)) =
      some (false, 0, 0) := by decide
  have heval : parseRow ["A", "d", "2", "3", "0"] emptyCols =
      some { item_code := "A", description := "d", quantity := 2,
             unit_price := 3, total_price := 6 } := by
    simp [parseRow, emptyCols, parseDecimal, h2, h3, h0, ratOfTriple, pyStrip]
    norm_num
  exact ⟨heval, c10_total_price_fallback _ _ _ "0" heval rfl⟩

/-- Glue for C8: the elif chain of `_identify_columns` assigns exactly the
role given by the ordered (role, keyword-set) table of the specification,
first matching role winning. -/
theorem identifyStep_eq_applyRole (i : ℕ) (h : String)
    (cols : ColumnIndices) :
    identifyStep i h cols = applyRole (specRoleOf h) i cols := by
  unfold identifyStep specRoleOf roleKeywords
  by_cases h1 : anyKeyword ["item", "code", "article"] (lowerChars h) = true
  · simp [h1, applyRole]
  · by_cases h2 :
      anyKeyword ["desc", "description", "product"] (lowerChars h) = true
    · simp [h1, h2, applyRole]
    · by_cases h3 :
        anyKeyword ["qty", "quantity", "amount"] (lowerChars h) = true
      · simp [h1, h2, h3, applyRole]
      · by_cases h4 : anyKeyword ["price", "unit"] (lowerChars h) = true
        · simp [h1, h2, h3, h4, applyRole]
        · by_cases h5 : anyKeyword ["total", "sum"] (lowerChars h) = true
          · simp [h1, h2, h3, h4, h5, applyRole]
          · simp [h1, h2, h3, h4, h5, applyRole]

/-- C8 (amended).  Conjunct 1: a nonempty table is parsed row by row through
the identified columns, except that a header matching no keyword at all
(empty column dictionary) makes the whole table be skipped, so its rows are
NOT parsed through the defaults.  Conjunct 2: the elif chain of
`_identify_columns` assigns to every column exactly the first role of the
ordered (role, keyword-set) table whose keywords match the lower-cased cell,
a later matching column overwriting the role index (the fold).  Conjunct 3:
row parsing reads each field from the assigned column when the header
assigned one and from its positional default column (0, 1, 2, 3, 4) when it
did not — filling every missing field with its default index changes
nothing, for any partial assignment.  Conjunct 4: first matching role per
column wins, exercised on a header matching two role vocabularies: "Total
Price" contains both "price" (unit_price role) and "total" (total_price
role), and is assigned unit_price because that role comes first in the elif
chain. -/
theorem c8_header_roles_and_defaults :
    (∀ header rows, processTable (header :: rows) =
      if identifyColumns header = emptyCols then []
      else rows.filterMap (fun r => parseRow r (identifyColumns header))) ∧
    (∀ header_row, identifyColumns header_row =
      header_row.enum.foldl
        (fun cols p => applyRole (specRoleOf p.2) p.1 cols) {}) ∧
    (∀ row cols, parseRow row cols =
      parseRow row { item_code := some (cols.item_code.getD 0),
                     description := some (cols.description.getD 1),
                     quantity := some (cols.quantity.getD 2),
                     unit_price := some (cols.unit_price.getD 3),
                     total_price := some (cols.total_price.getD 4) }) ∧
    specRoleOf "Total Price" = some "unit_price" := by
  refine ⟨fun header rows => rfl, fun hr => ?_, fun row cols => rfl,
    by decide⟩
  unfold identifyColumns
  congr 1
  funext cols p
  exact identifyStep_eq_applyRole p.1 p.2 cols

/-- C8 counterexample: a table whose header matches no keyword is skipped
entirely by `_process_table` (the empty column dictionary is falsy), even
though its data row would parse through the positional default columns. -/
theorem c8_counterexample :
    processTable [["a", "b", "c", "d", "e"],
                  ["X1", "thing", "2", "3.50", "7.00"]] = [] ∧
    parseRow ["X1", "thing", "2", "3.50", "7.00"] emptyCols =
      some { item_code := "X1", description := "thing", quantity := 2,
             unit_price := 35 / 10, total_price := 7 } := by
  constructor
  · have hcols : identifyColumns ["a", "b", "c", "d", "e"] = emptyCols := by
      decide
    simp [processTable, hcols]
  · have h2 : pyDecimalOfChars (commaStage (cleanValue "2".data)) =
        some (false, 2, 0) := by decide
    have h3 : pyDecimalOfChars (commaStage (cleanValue "3.50".data)) =
        some (false, 350, 2) := by decide
    have h7 : pyDecimalOfChars (commaStage (cleanValue "7.00".data)) =
        some (false, 700, 2) := by decide
    simp [parseRow, emptyCols, parseDecimal, h2, h3, h7, ratOfTriple, pyStrip]
    norm_num

/-- Every result emitted by the offer loop carries the code of its offer
item. -/
theorem processOfferItem_code (dict : List Item) (o : Item)
    (r : ComparisonResult) (h : processOfferItem dict o = some r) :
    r.item_code = o.item_code := by
  unfold processOfferItem at h
  cases hf : dict.find? (fun a => a.item_code == o.item_code) with
  | none =>
    rw [hf] at h
    injection h with h2
    rw [← h2]
  | some a =>
    rw [hf] at h
    simp only [Option.map_eq_some'] at h
    obtain ⟨st, hst, hr⟩ := h
    rw [← hr]

/-- The offer-loop body raises exactly when the code is found in the
aggregate, the quantities agree, and the offer unit price is zero. -/
theorem processOfferItem_none_iff (dict : List Item) (o : Item) :
    processOfferItem dict o = none ↔
      ∃ a, dict.find? (fun x => x.item_code == o.item_code) = some a ∧
        o.quantity = a.quantity ∧ o.unit_price = 0 := by
  unfold processOfferItem
  cases hf : dict.find? (fun a => a.item_code == o.item_code) with
  | none => simp
  | some a =>
    simp only [Option.map_eq_none', Option.some.injEq]
    constructor
    · intro h
      split_ifs at h with h1 h2
      · exact ⟨a, rfl, by linarith [sub_eq_zero.mp (not_ne_iff.mp h1)], h2⟩
    · rintro ⟨a2, ha2, hq, hup⟩
      obtain rfl : a2 = a := ha2.symm
      rw [if_neg (by simp [hq]), if_pos hup]

/-- The offer loop raises exactly when one of its iterations raises. -/
theorem offerLoop_none_iff (dict : List Item) (l : List Item) :
    offerLoop dict l = none ↔ ∃ o ∈ l, processOfferItem dict o = none := by
  induction l with
  | nil => simp [offerLoop]
  | cons o rest ih =>
    simp only [offerLoop]
    cases hpo : processOfferItem dict o with
    | none => simp [hpo]
    | some r =>
      cases hrest : offerLoop dict rest with
      | none => simp [hpo, hrest, ih.mp hrest]
      | some rs => simp [hpo, hrest, ← ih]

/-- Position-wise description of a successful offer loop. -/
theorem offerLoop_get? (dict : List Item) (l : List Item)
    (rs : List ComparisonResult) (h : offerLoop dict l = some rs) (k : ℕ) :
    rs.get? k = (l.get? k).bind (processOfferItem dict) := by
  induction l generalizing rs k with
  | nil =>
    simp only [offerLoop, Option.some_inj] at h
    simp [← h]
  | cons o rest ih =>
    simp only [offerLoop] at h
    cases hpo : processOfferItem dict o with
    | none => rw [hpo] at h; exact absurd h (by simp)
    | some r =>
      rw [hpo] at h
      cases hrest : offerLoop dict rest with
      | none => rw [hrest] at h; exact absurd h (by simp)
      | some rs2 =>
        rw [hrest] at h
        obtain rfl : r :: rs2 = rs := Option.some_inj.mp h
        cases k with
        | zero => simp [hpo]
        | succ k2 => simpa using ih rs2 hrest k2

/-- A successful offer loop yields one result per offer item. -/
theorem offerLoop_length (dict : List Item) (l : List Item)
    (rs : List ComparisonResult) (h : offerLoop dict l = some rs) :
    rs.length = l.length := by
  induction l generalizing rs with
  | nil => simp only [offerLoop, Option.some_inj] at h; simp [← h]
  | cons o rest ih =>
    simp only [offerLoop] at h
    cases hpo : processOfferItem dict o with
    | none => rw [hpo] at h; exact absurd h (by simp)
    | some r =>
      rw [hpo] at h
      cases hrest : offerLoop dict rest with
      | none => rw [hrest] at h; exact absurd h (by simp)
      | some rs2 =>
        rw [hrest] at h
        obtain rfl : r :: rs2 = rs := Option.some_inj.mp h
        simp [ih rs2 hrest]

/-- A successful offer loop reproduces the offer codes in offer order. -/
theorem offerLoop_map_code (dict : List Item) (l : List Item)
    (rs : List ComparisonResult) (h : offerLoop dict l = some rs) :
    rs.map (fun r => r.item_code) = l.map (fun o => o.item_code) := by
  induction l generalizing rs with
  | nil => simp only [offerLoop, Option.some_inj] at h; simp [← h]
  | cons o rest ih =>
    simp only [offerLoop] at h
    cases hpo : processOfferItem dict o with
    | none => rw [hpo] at h; exact absurd h (by simp)
    | some r =>
      rw [hpo] at h
      cases hrest : offerLoop dict rest with
      | none => rw [hrest] at h; exact absurd h (by simp)
      | some rs2 =>
        rw [hrest] at h
        obtain rfl : r :: rs2 = rs := Option.some_inj.mp h
        simp [ih rs2 hrest, processOfferItem_code dict o r hpo]

/-- The invoice-only loop keeps exactly the aggregated items whose code is
not an offer code, in dict order. -/
theorem extraLoop_eq (oc : List String) (dict : List Item) :
    extraLoop oc dict =
      (dict.filter (fun a => !(oc.contains a.item_code))).map mkExtra := by
  induction dict with
  | nil => simp [extraLoop]
  | cons a rest ih =>
    by_cases hc : a.item_code ∈ oc
    · simp [extraLoop, hc, ih, List.filter_cons]
    · simp [extraLoop, hc, ih, List.filter_cons]

/-- A successful comparison is the offer-loop output followed by the
invoice-only results. -/
theorem compareDocuments_some (offer inv : List Item)
    (res : List ComparisonResult) (h : compareDocuments offer inv = some res) :
    ∃ rs, offerLoop (aggregate inv) offer = some rs ∧
      res = rs ++ extraLoop (offer.map (fun o => o.item_code))
        (aggregate inv) := by
  unfold compareDocuments at h
  cases hol : offerLoop (aggregate inv) offer with
  | none => rw [hol] at h; exact absurd h (by simp)
  | some rs =>
    rw [hol] at h
    exact ⟨rs, rfl, (Option.some_inj.mp h).symm⟩

/-- The comparison raises exactly when the offer loop raises. -/
theorem compareDocuments_none_iff (offer inv : List Item) :
    compareDocuments offer inv = none ↔
      offerLoop (aggregate inv) offer = none := by
  unfold compareDocuments
  cases hol : offerLoop (aggregate inv) offer <;> simp [hol]

/-- Codes of one aggregation step: a known code changes nothing, a new code
is appended. -/
theorem insertAgg_codes (acc : List Item) (it : Item) :
    (insertAgg acc it).map (fun a => a.item_code) =
      if (acc.map (fun a => a.item_code)).contains it.item_code then
        acc.map (fun a => a.item_code)
      else acc.map (fun a => a.item_code) ++ [it.item_code] := by
  unfold insertAgg
  by_cases hc : acc.any (fun a => a.item_code == it.item_code)
  · rw [if_pos hc]
    have hmem : it.item_code ∈ acc.map (fun a => a.item_code) := by
      simp only [List.any_eq_true] at hc
      obtain ⟨a, ha, hbeq⟩ := hc
      simp only [beq_iff_eq] at hbeq
      exact List.mem_map.mpr ⟨a, ha, hbeq⟩
    rw [if_pos (by simpa using hmem)]
    rw [List.map_map]
    apply List.map_congr_left
    intro a ha
    by_cases he : a.item_code = it.item_code <;> simp [he]
  · rw [if_neg hc]
    have hmem : it.item_code ∉ acc.map (fun a => a.item_code) := by
      intro hm
      apply hc
      obtain ⟨a, ha, he⟩ := List.mem_map.mp hm
      exact List.any_eq_true.mpr ⟨a, ha, by simp [he]⟩
    rw [if_neg (by simpa using hmem)]
    simp

/-- Codes of the aggregation fold, for any accumulator. -/
theorem foldl_insertAgg_codes (l : List Item) (acc : List Item) :
    ((l.foldl insertAgg acc).map (fun a => a.item_code)) =
      (l.map (fun a => a.item_code)).foldl
        (fun cs c => if cs.contains c then cs else cs ++ [c])
        (acc.map (fun a => a.item_code)) := by
  induction l generalizing acc with
  | nil => simp
  | cons it rest ih =>
    simp only [List.foldl_cons, List.map_cons]
    rw [ih (insertAgg acc it), insertAgg_codes]

/-- The aggregate lists the invoice codes in first-appearance order. -/
theorem aggregate_codes (l : List Item) :
    (aggregate l).map (fun a => a.item_code) =
      dedupFirst (l.map (fun a => a.item_code)) := by
  unfold aggregate dedupFirst
  simpa using foldl_insertAgg_codes l []

/-- Membership in the first-appearance fold. -/
theorem mem_foldl_dedup (cs : List String) (acc : List String) (x : String) :
    x ∈ cs.foldl (fun cs c => if cs.contains c then cs else cs ++ [c]) acc ↔
      x ∈ acc ∨ x ∈ cs := by
  induction cs generalizing acc with
  | nil => simp
  | cons c rest ih =>
    simp only [List.foldl_cons]
    rw [ih]
    by_cases hc : c ∈ acc
    · rw [if_pos (by simpa using hc)]
      constructor
      · rintro (h | h)
        · exact Or.inl h
        · exact Or.inr (List.mem_cons_of_mem c h)
      · rintro (h | h)
        · exact Or.inl h
        · rcases List.mem_cons.mp h with rfl | h2
          · exact Or.inl hc
          · exact Or.inr h2
    · rw [if_neg (by simpa using hc)]
      simp only [List.mem_append, List.mem_singleton, List.mem_cons]
      tauto

/-- The first-appearance fold keeps its accumulator free of duplicates. -/
theorem nodup_foldl_dedup (cs : List String) (acc : List String)
    (h : acc.Nodup) :
    (cs.foldl (fun cs c => if cs.contains c then cs else cs ++ [c])
      acc).Nodup := by
  induction cs generalizing acc with
  | nil => simpa
  | cons c rest ih =>
    simp only [List.foldl_cons]
    by_cases hc : c ∈ acc
    · rw [if_pos (by simpa using hc)]
      exact ih acc h
    · rw [if_neg (by simpa using hc)]
      apply ih
      exact List.Nodup.append h (List.nodup_singleton c)
        (by simp [List.disjoint_singleton, hc])

/-- First-appearance deduplication preserves membership. -/
theorem mem_dedupFirst (cs : List String) (x : String) :
    x ∈ dedupFirst cs ↔ x ∈ cs := by
  unfold dedupFirst
  simpa using mem_foldl_dedup cs [] x

/-- First-appearance deduplication yields no duplicates. -/
theorem nodup_dedupFirst (cs : List String) : (dedupFirst cs).Nodup := by
  unfold dedupFirst
  exact nodup_foldl_dedup cs [] List.nodup_nil

/-- A code occurs in the aggregate exactly when it occurs in the invoice
items. -/
theorem aggregate_mem_code (l : List Item) (c : String) :
    c ∈ (aggregate l).map (fun a => a.item_code) ↔
      c ∈ l.map (fun a => a.item_code) := by
  rw [aggregate_codes]
  exact mem_dedupFirst _ c

/-- The aggregate holds each code at most once. -/
theorem aggregate_codes_nodup (l : List Item) :
    ((aggregate l).map (fun a => a.item_code)).Nodup := by
  rw [aggregate_codes]
  exact nodup_dedupFirst _

/-- Codes of the invoice-only results are the aggregate codes not present
among the offer codes, in aggregate order. -/
theorem extraLoop_map_code (oc : List String) (dict : List Item) :
    (extraLoop oc dict).map (fun r => r.item_code) =
      ((dict.map (fun a => a.item_code)).filter
        (fun c => !(oc.contains c))) := by
  induction dict with
  | nil => simp [extraLoop]
  | cons a rest ih =>
    by_cases hc : a.item_code ∈ oc
    · simp [extraLoop, hc, ih, List.filter_cons]
    · simp [extraLoop, hc, ih, List.filter_cons, mkExtra]

/-- The summary loop never changes the item count set up before it. -/
theorem summaryStep_total_items (s : Summary) (r : ComparisonResult) :
    (summaryStep s r).total_items = s.total_items := by
  unfold summaryStep; split_ifs <;> rfl

/-- Effect of one summary step on the match counter. -/
theorem summaryStep_matches (s : Summary) (r : ComparisonResult) :
    (summaryStep s r).matches_count =
      s.matches_count + (if r.status = "match" then 1 else 0) := by
  unfold summaryStep; split_ifs with h1 h2 h3 h4 h5 <;> simp [h1]

/-- Effect of one summary step on the quantity-mismatch counter. -/
theorem summaryStep_qm (s : Summary) (r : ComparisonResult) :
    (summaryStep s r).quantity_mismatches =
      s.quantity_mismatches +
        (if r.status = "quantity_mismatch" then 1 else 0) := by
  unfold summaryStep
  split_ifs with h1 h2 h3 h4 h5 <;> simp_all

/-- Effect of one summary step on the price-mismatch counter. -/
theorem summaryStep_pm (s : Summary) (r : ComparisonResult) :
    (summaryStep s r).price_mismatches =
      s.price_mismatches + (if r.status = "price_mismatch" then 1 else 0) := by
  unfold summaryStep
  split_ifs with h1 h2 h3 h4 h5 <;> simp_all

/-- Effect of one summary step on the missing counter. -/
theorem summaryStep_mi (s : Summary) (r : ComparisonResult) :
    (summaryStep s r).missing_items =
      s.missing_items + (if r.status = "missing" then 1 else 0) := by
  unfold summaryStep
  split_ifs with h1 h2 h3 h4 h5 <;> simp_all

/-- Effect of one summary step on the extra-item counter. -/
theorem summaryStep_ei (s : Summary) (r : ComparisonResult) :
    (summaryStep s r).extra_items =
      s.extra_items + (if r.status = "extra_item" then 1 else 0) := by
  unfold summaryStep
  split_ifs with h1 h2 h3 h4 h5 <;> simp_all

/-- Every summary step adds the absolute quantity difference. -/
theorem summaryStep_tqd (s : Summary) (r : ComparisonResult) :
    (summaryStep s r).total_quantity_difference =
      s.total_quantity_difference + |r.quantity_difference| := by
  unfold summaryStep; split_ifs <;> rfl

/-- Every summary step adds the absolute price difference. -/
theorem summaryStep_tpd (s : Summary) (r : ComparisonResult) :
    (summaryStep s r).total_price_difference =
      s.total_price_difference + |r.price_difference| := by
  unfold summaryStep; split_ifs <;> rfl

/-- Closed form of the summary loop over any starting record. -/
theorem foldl_summaryStep (rs : List ComparisonResult) : ∀ (s : Summary),
    rs.foldl summaryStep s =
      { total_items := s.total_items,
        matches_count := s.matches_count +
          rs.countP (fun r => r.status == "match"),
        quantity_mismatches := s.quantity_mismatches +
          rs.countP (fun r => r.status == "quantity_mismatch"),
        price_mismatches := s.price_mismatches +
          rs.countP (fun r => r.status == "price_mismatch"),
        missing_items := s.missing_items +
          rs.countP (fun r => r.status == "missing"),
        extra_items := s.extra_items +
          rs.countP (fun r => r.status == "extra_item"),
        total_quantity_difference := s.total_quantity_difference +
          (rs.map (fun r => |r.quantity_difference|)).sum,
        total_price_difference := s.total_price_difference +
          (rs.map (fun r => |r.price_difference|)).sum } := by
  induction rs with
  | nil => intro s; simp
  | cons r rest ih =>
    intro s
    rw [List.foldl_cons, ih (summaryStep s r)]
    simp only [Summary.mk.injEq, List.countP_cons, List.map_cons,
      List.sum_cons, summaryStep_total_items, summaryStep_matches,
      summaryStep_qm, summaryStep_pm, summaryStep_mi, summaryStep_ei,
      summaryStep_tqd, summaryStep_tpd, beq_iff_eq]
    refine ⟨trivial, ?_, ?_, ?_, ?_, ?_, ?_, ?_⟩ <;> ring

/-- C1 counterexample: an offer item with unit price zero whose code occurs
in the invoices with equal quantity makes `compare_documents` raise (the
division by the offer unit price is unguarded), instead of classifying the
item as a match. -/
theorem c1_counterexample :
    compareDocuments
      [{ item_code := "A", description := "x", quantity := 1,
         unit_price := 0, total_price := 0 }]
      [{ item_code := "A", description := "x", quantity := 1,
         unit_price := 0, total_price := 0 }] = none := by
  norm_num [compareDocuments, aggregate, insertAgg, offerLoop,
    processOfferItem, List.find?]

/-- C1 (amended): `generate_summary` is total (see the C9 theorem), and
`compare_documents` raises exactly when some offer item has unit price zero,
its code occurs in the aggregated invoice items, and the quantities agree;
for all other well-typed inputs the comparison returns normally. -/
theorem c1_exception_characterization (offer inv : List Item) :
    (compareDocuments offer inv = none ↔
      ∃ o ∈ offer, o.unit_price = 0 ∧
        ∃ a, (aggregate inv).find?
            (fun x => x.item_code == o.item_code) = some a ∧
          o.quantity = a.quantity) ∧
    (∀ rs, (generateSummary rs).total_items = rs.length) := by
  constructor
  · rw [compareDocuments_none_iff, offerLoop_none_iff]
    constructor
    · rintro ⟨o, ho, hpo⟩
      obtain ⟨a, ha, hq, hup⟩ := (processOfferItem_none_iff _ o).mp hpo
      exact ⟨o, ho, hup, a, ha, hq⟩
    · rintro ⟨o, ho, hup, a, ha, hq⟩
      exact ⟨o, ho, (processOfferItem_none_iff _ o).mpr ⟨a, ha, hq, hup⟩⟩
  · intro rs
    unfold generateSummary
    rw [foldl_summaryStep]

/-- C3 counterexample: after the aggregation loop of `compare_documents`,
the caller-owned invoice list no longer holds its original items: the first
occurrence of a repeated code has been mutated in place. -/
theorem c3_counterexample :
    finalInvoiceState
      [{ item_code := "A", description := "w", quantity := 1,
         unit_price := 10, total_price := 10 },
       { item_code := "A", description := "w", quantity := 2,
         unit_price := 10, total_price := 20 }] ≠
      [{ item_code := "A", description := "w", quantity := 1,
         unit_price := 10, total_price := 10 },
       { item_code := "A", description := "w", quantity := 2,
         unit_price := 10, total_price := 20 }] := by
  have h : finalInvoiceState
      [{ item_code := "A", description := "w", quantity := 1,
         unit_price := 10, total_price := 10 },
       { item_code := "A", description := "w", quantity := 2,
         unit_price := 10, total_price := 20 }] =
      [{ item_code := "A", description := "w", quantity := 3,
         unit_price := 10, total_price := 30 },
       { item_code := "A", description := "w", quantity := 2,
         unit_price := 10, total_price := 20 }] := by
    norm_num [finalInvoiceState, aggregate, insertAgg, List.enum,
      List.enumFrom, List.find?]
  rw [h]
  simp only [ne_eq, List.cons.injEq, Item.mk.injEq]
  norm_num

/-- C3 (amended): aggregating two invoice items with the same code yields a
single entry with quantity q1+q2, total price t1+t2, and unit price and
description from the first occurrence; but the merged entry is produced by
mutating the first source item in place, so after the call the invoice list
holds the mutated first occurrence, and repeated invocation on the same list
is not safe. -/
theorem c3_aggregation_mutates (i1 i2 : Item)
    (h : i1.item_code = i2.item_code) :
    aggregate [i1, i2] =
      [{ i1 with quantity := i1.quantity + i2.quantity,
                 total_price := i1.total_price + i2.total_price }] ∧
    finalInvoiceState [i1, i2] =
      [{ i1 with quantity := i1.quantity + i2.quantity,
                 total_price := i1.total_price + i2.total_price }, i2] := by
  have hagg : aggregate [i1, i2] =
      [{ i1 with quantity := i1.quantity + i2.quantity,
                 total_price := i1.total_price + i2.total_price }] := by
    simp [aggregate, insertAgg, h]
  refine ⟨hagg, ?_⟩
  simp [finalInvoiceState, hagg, List.enum, List.enumFrom, List.find?, h]

/-- C3 witness: two concrete invoice items with code A, quantities 1 and 2,
merge into the first item mutated to quantity 1+2 and total 10+20. -/
theorem c3_witness :
    aggregate
      [{ item_code := "A", description := "w", quantity := 1,
         unit_price := 10, total_price := 10 },
       { item_code := "A", description := "w", quantity := 2,
         unit_price := 10, total_price := 20 }] =
      [{ ({ item_code := "A", description := "w", quantity := 1,
            unit_price := 10, total_price := 10 } : Item) with
          quantity := (1 : ℚ) + 2, total_price := (10 : ℚ) + 20 }] ∧
    finalInvoiceState
      [{ item_code := "A", description := "w", quantity := 1,
         unit_price := 10, total_price := 10 },
       { item_code := "A", description := "w", quantity := 2,
         unit_price := 10, total_price := 20 }] =
      [{ ({ item_code := "A", description := "w", quantity := 1,
            unit_price := 10, total_price := 10 } : Item) with
          quantity := (1 : ℚ) + 2, total_price := (10 : ℚ) + 20 },
       { item_code := "A", description := "w", quantity := 2,
         unit_price := 10, total_price := 20 }] :=
  c3_aggregation_mutates
    { item_code := "A", description := "w", quantity := 1,
      unit_price := 10, total_price := 10 }
    { item_code := "A", description := "w", quantity := 2,
      unit_price := 10, total_price := 20 } rfl

/-- C4 counterexample: an offer listing the same code twice produces two
output rows with that code, so the output does not contain exactly one
result per distinct item code. -/
theorem c4_counterexample :
    (compareDocuments
      [{ item_code := "A", description := "w", quantity := 1,
         unit_price := 2, total_price := 2 },
       { item_code := "A", description := "w", quantity := 1,
         unit_price := 2, total_price := 2 }] []).map
      (fun res => res.map (fun r => r.item_code)) = some ["A", "A"] ∧
    ¬(["A", "A"] : List String).Nodup := by
  constructor
  · norm_num [compareDocuments, aggregate, offerLoop, processOfferItem,
      extraLoop, List.find?]
  · decide

/-- C4 (amended): when the offer item codes are pairwise distinct and the
comparison returns normally, the output holds each code at most once and its
codes are exactly the union of the offer codes and the invoice codes. -/
theorem c4_unique_codes (offer inv : List Item) (res : List ComparisonResult)
    (hnd : (offer.map (fun o => o.item_code)).Nodup)
    (h : compareDocuments offer inv = some res) :
    (res.map (fun r => r.item_code)).Nodup ∧
    ∀ c, c ∈ res.map (fun r => r.item_code) ↔
      (c ∈ offer.map (fun o => o.item_code) ∨
       c ∈ inv.map (fun x => x.item_code)) := by
  obtain ⟨rs, hol, hres⟩ := compareDocuments_some offer inv res h
  subst hres
  rw [List.map_append]
  have hcodes := offerLoop_map_code _ _ _ hol
  rw [hcodes, extraLoop_map_code]
  have hsub : List.Sublist
      (((aggregate inv).map (fun a => a.item_code)).filter
        (fun c => !((offer.map (fun o => o.item_code)).contains c)))
      ((aggregate inv).map (fun a => a.item_code)) := List.filter_sublist _
  constructor
  · apply List.Nodup.append hnd ((aggregate_codes_nodup inv).sublist hsub)
    intro c hc1 hc2
    simp only [List.mem_filter, Bool.not_eq_true', List.contains_eq_any_beq,
      List.any_eq_false, beq_iff_eq] at hc2
    exact hc2.2 c hc1 rfl
  · intro c
    rw [List.mem_append]
    constructor
    · rintro (hc | hc)
      · exact Or.inl hc
      · exact Or.inr
          ((aggregate_mem_code inv c).mp (List.mem_of_mem_filter hc))
    · rintro (hc | hc)
      · exact Or.inl hc
      · by_cases hoc : c ∈ offer.map (fun o => o.item_code)
        · exact Or.inl hoc
        · refine Or.inr (List.mem_filter.mpr
            ⟨(aggregate_mem_code inv c).mpr hc, ?_⟩)
          simp only [Bool.not_eq_true', List.contains_eq_any_beq,
            List.any_eq_false, beq_iff_eq]
          exact fun x hx he => hoc (by rw [he]; exact hx)

/-- C4 witness: a one-item offer (code A) against a one-item invoice
(code B) yields codes A then B, each exactly once. -/
theorem c4_witness :
    (resC4.map (fun r => r.item_code)).Nodup ∧
    ∀ c, c ∈ resC4.map (fun r => r.item_code) ↔
      (c ∈ offerC4.map (fun o => o.item_code) ∨
       c ∈ invC4.map (fun x => x.item_code)) :=
  c4_unique_codes offerC4 invC4 resC4 (by decide) rfl

/-- C6: a normal comparison output is the offer-derived results, one per
offer item and in offer order (same code at each position), followed by the
invoice-only results, which keep the aggregate first-appearance order and
carry status extra_item, zero offer quantity and price, quantity difference
minus the aggregated quantity, and price difference minus the aggregated
unit price. -/
theorem c6_output_order (offer inv : List Item) (res : List ComparisonResult)
    (h : compareDocuments offer inv = some res) :
    ∃ rs, offerLoop (aggregate inv) offer = some rs ∧
      res = rs ++ extraLoop (offer.map (fun o => o.item_code))
        (aggregate inv) ∧
      rs.length = offer.length ∧
      (∀ k, (rs.get? k).map (fun r => r.item_code) =
        (offer.get? k).map (fun o => o.item_code)) ∧
      extraLoop (offer.map (fun o => o.item_code)) (aggregate inv) =
        ((aggregate inv).filter
          (fun a => !((offer.map (fun o => o.item_code)).contains
            a.item_code))).map mkExtra ∧
      (aggregate inv).map (fun a => a.item_code) =
        dedupFirst (inv.map (fun x => x.item_code)) ∧
      (∀ r ∈ extraLoop (offer.map (fun o => o.item_code)) (aggregate inv),
        r.status = "extra_item" ∧ r.offer_quantity = 0 ∧ r.offer_price = 0 ∧
        r.quantity_difference = -r.delivered_quantity ∧
        r.price_difference = -r.invoiced_price ∧
        ∃ a ∈ aggregate inv, r = mkExtra a) := by
  obtain ⟨rs, hol, hres⟩ := compareDocuments_some offer inv res h
  refine ⟨rs, hol, hres, offerLoop_length _ _ _ hol, ?_, extraLoop_eq _ _,
    aggregate_codes inv, ?_⟩
  · intro k
    rw [offerLoop_get? _ _ _ hol k]
    cases ho : offer.get? k with
    | none => simp
    | some o =>
      simp only [Option.some_bind]
      cases hpo : processOfferItem (aggregate inv) o with
      | none =>
        exfalso
        have hlen := offerLoop_length _ _ _ hol
        have hk : k < offer.length := (List.get?_eq_some.mp ho).1
        have : rs.get? k = none := by
          rw [offerLoop_get? _ _ _ hol k, ho, Option.some_bind, hpo]
        rw [List.get?_eq_none] at this
        omega
      | some r => simp [processOfferItem_code _ _ _ hpo]
  · intro r hr
    rw [extraLoop_eq] at hr
    obtain ⟨a, ha, hra⟩ := List.mem_map.mp hr
    subst hra
    exact ⟨rfl, rfl, rfl, by simp [mkExtra], by simp [mkExtra],
      a, List.mem_of_mem_filter ha, rfl⟩

/-- C6 witness: with an empty offer and a one-item invoice, the output is
exactly the one extra_item row with the stated fields. -/
theorem c6_witness :
    ∃ rs, offerLoop (aggregate invC6) ([] : List Item) = some rs ∧
      resC6 = rs ++ extraLoop (([] : List Item).map (fun o => o.item_code))
        (aggregate invC6) ∧
      rs.length = ([] : List Item).length ∧
      (∀ k, (rs.get? k).map (fun r => r.item_code) =
        (([] : List Item).get? k).map (fun o => o.item_code)) ∧
      extraLoop (([] : List Item).map (fun o => o.item_code))
          (aggregate invC6) =
        ((aggregate invC6).filter
          (fun a => !((([] : List Item).map (fun o => o.item_code)).contains
            a.item_code))).map mkExtra ∧
      (aggregate invC6).map (fun a => a.item_code) =
        dedupFirst (invC6.map (fun x => x.item_code)) ∧
      (∀ r ∈ extraLoop (([] : List Item).map (fun o => o.item_code))
          (aggregate invC6),
        r.status = "extra_item" ∧ r.offer_quantity = 0 ∧ r.offer_price = 0 ∧
        r.quantity_difference = -r.delivered_quantity ∧
        r.price_difference = -r.invoiced_price ∧
        ∃ a ∈ aggregate invC6, r = mkExtra a) :=
  c6_output_order [] invC6 resC6 rfl

/-- C7: for an offer item found in the aggregate with nonzero unit price,
the status follows the exact priority: quantity_mismatch when the quantity
difference is nonzero; otherwise price_mismatch exactly when the relative
price deviation strictly exceeds the tolerance 0.02; otherwise match — in
particular a deviation equal to the tolerance gives match. -/
theorem c7_status_priority (offer inv : List Item)
    (res : List ComparisonResult) (k : ℕ) (o a : Item)
    (h : compareDocuments offer inv = some res)
    (ho : offer.get? k = some o)
    (ha : (aggregate inv).find? (fun x => x.item_code == o.item_code) =
      some a)
    (hup : o.unit_price ≠ 0) :
    ∃ r, res.get? k = some r ∧
      (o.quantity - a.quantity ≠ 0 → r.status = "quantity_mismatch") ∧
      (o.quantity - a.quantity = 0 →
        |(o.unit_price - a.unit_price) / o.unit_price| > price_tolerance →
          r.status = "price_mismatch") ∧
      (o.quantity - a.quantity = 0 →
        |(o.unit_price - a.unit_price) / o.unit_price| ≤ price_tolerance →
          r.status = "match") := by
  obtain ⟨rs, hol, hres⟩ := compareDocuments_some offer inv res h
  have hk : k < offer.length := (List.get?_eq_some.mp ho).1
  have hlen := offerLoop_length _ _ _ hol
  have hget : rs.get? k = processOfferItem (aggregate inv) o := by
    rw [offerLoop_get? _ _ _ hol k, ho, Option.some_bind]
  subst hres
  rw [List.get?_append (by omega)]
  unfold processOfferItem at hget
  rw [ha] at hget
  dsimp only at hget
  by_cases hq : o.quantity - a.quantity ≠ 0
  · rw [if_pos hq] at hget
    rw [Option.map_some'] at hget
    refine ⟨_, hget, fun _ => rfl, ?_, ?_⟩
    · intro h0; exact absurd h0 hq
    · intro h0; exact absurd h0 hq
  · rw [if_neg hq, if_neg hup] at hget
    by_cases hp : |(o.unit_price - a.unit_price) / o.unit_price| >
        price_tolerance
    · rw [if_pos hp, Option.map_some'] at hget
      refine ⟨_, hget, fun hc => absurd hc hq, fun _ _ => rfl, ?_⟩
      intro _ hle
      exact absurd hp (not_lt.mpr hle)
    · rw [if_neg hp, Option.map_some'] at hget
      exact ⟨_, hget, fun hc => absurd hc hq,
        fun _ hgt => absurd hgt hp, fun _ _ => rfl⟩

/-- C7 witness: invoiced price 24.50 against offer price 25 is a relative
deviation of exactly 0.02, which the comparison classifies match. -/
theorem c7_witness :
    ∃ r, resC7.get? 0 = some r ∧
      (offerItemC7.quantity - invItemC7.quantity ≠ 0 →
        r.status = "quantity_mismatch") ∧
      (offerItemC7.quantity - invItemC7.quantity = 0 →
        |(offerItemC7.unit_price - invItemC7.unit_price) /
            offerItemC7.unit_price| > price_tolerance →
          r.status = "price_mismatch") ∧
      (offerItemC7.quantity - invItemC7.quantity = 0 →
        |(offerItemC7.unit_price - invItemC7.unit_price) /
            offerItemC7.unit_price| ≤ price_tolerance →
          r.status = "match") := by
  have habs : |((1 : ℚ))/50| = 1/50 := abs_of_nonneg (by norm_num)
  have heval : compareDocuments [offerItemC7] [invItemC7] = some resC7 := by
    norm_num [compareDocuments, aggregate, insertAgg, offerLoop,
      processOfferItem, extraLoop, List.find?, price_tolerance, habs,
      offerItemC7, invItemC7, resC7]
  exact c7_status_priority [offerItemC7] [invItemC7] resC7 0
    offerItemC7 invItemC7 heval rfl rfl (by norm_num [offerItemC7])

/-- C9: the summary of any result list counts the results, counts each of
the five statuses once per result carrying it, and accumulates the absolute
quantity and price differences over all results; the empty list gives the
all-zero summary. -/
theorem c9_generate_summary (results : List ComparisonResult) :
    generateSummary results =
      { total_items := results.length,
        matches_count := results.countP (fun r => r.status == "match"),
        quantity_mismatches :=
          results.countP (fun r => r.status == "quantity_mismatch"),
        price_mismatches :=
          results.countP (fun r => r.status == "price_mismatch"),
        missing_items := results.countP (fun r => r.status == "missing"),
        extra_items := results.countP (fun r => r.status == "extra_item"),
        total_quantity_difference :=
          (results.map (fun r => |r.quantity_difference|)).sum,
        total_price_difference :=
          (results.map (fun r => |r.price_difference|)).sum } ∧
    generateSummary [] =
      { total_items := 0, matches_count := 0, quantity_mismatches := 0,
        price_mismatches := 0, missing_items := 0, extra_items := 0,
        total_quantity_difference := 0, total_price_difference := 0 } := by
  constructor
  · unfold generateSummary
    rw [foldl_summaryStep]
    simp
  · rfl
